import Mathlib

/-!
Verification development for the markup-to-block-tree conversion engine of
the enex2notion repository.  The first part embeds the rich-text property
extractor (`enex2notion/note_parser/string_extractor_properties.py`); the
second part models (from the specification, calibrated against the test
suite `tests/test_note_parser.py`) the indentation hierarchy builder, the
table builder, the resource-by-reference resolver and the note-fatal parse
boundary, whose implementing modules are not part of the extracted source.

Conventions of the embedding:
* Python tuples of strings (formatting properties such as `("b",)` or
  `("a", url)`) are embedded as `List String`.
* Python `set` becomes `Finset (List String)`.
* Optional attributes (`tag.get(...)`) become `Option String`; Python
  truthiness of a string option is `o` being `some s` with `s` nonempty.
* Fallible code (Python exceptions) returns `Except String`.
* External collaborators (the destination search service, the HTML entity
  unescaper from the standard library, the color extractor living in a
  module outside the extracted source) are abstracted as function
  parameters, mirroring the narrow-interface design the spec prescribes.
-/

/-- A markup element as far as the property extractor inspects it:
its tag name and the two attributes the extractor reads. -/
structure Tag where
  name : String
  style : Option String := none
  href : Option String := none
deriving DecidableEq

/-- One result page returned by the external search capability:
its plain-text title and its destination URL. -/
structure SearchResult where
  plain_text : String
  url : String
deriving DecidableEq

/-- The external collaborators and read-only inputs of link resolution:
the id-to-title translation dictionary (an association list preserving
iteration order), the search capability (query string to result list or
exception), and the HTML entity unescaper. -/
structure LinkEnv where
  translation_dict : List (String × String)
  search : String → Except String (List SearchResult)
  unescape : String → String

/-- Whether the character is matched by the regex class `\s` (Python). -/
def isPySpace (c : Char) : Bool :=
  c = ' ' || c = '\t' || c = '\n' || c = '\r' || c = '\x0b' || c = '\x0c'

/-- Does `val` occur as a prefix of the input after skipping zero or more
whitespace characters, as the regex fragment `\s*val` would match. -/
def prefixAfterWs (val : List Char) : List Char → Bool
  | [] => val.isEmpty
  | c :: cs => val.isPrefixOf (c :: cs) || (isPySpace c && prefixAfterWs val cs)

/-- Does the input start with `key` followed by `\s*` and then `val`. -/
def startsKeyWsVal (key val : List Char) (s : List Char) : Bool :=
  key.isPrefixOf s && prefixAfterWs val (s.drop key.length)

/-- Semantics of Python `re.match(r".*key\s*val", s)` being truthy:
some position of `s`, reachable without crossing a newline (the dot does
not match a newline), starts with `key` then optional whitespace then
`val`. -/
def reDotStarMatch (key val : List Char) : List Char → Bool
  | [] => startsKeyWsVal key val []
  | c :: cs => startsKeyWsVal key val (c :: cs) || (c ≠ '\n' && reDotStarMatch key val cs)

/-- Truthiness of `re.match(r".*font-weight:\s*bold", style)`. -/
def reMatchBold (style : String) : Bool :=
  reDotStarMatch "font-weight:".data "bold".data style.data

/-- Truthiness of `re.match(r".*font-style:\s*italic", style)`. -/
def reMatchItalic (style : String) : Bool :=
  reDotStarMatch "font-style:".data "italic".data style.data

/-- Python `str.lower()` restricted to its ASCII action, as an executable
character map. -/
def lowerAscii (s : String) : String :=
  String.mk (s.data.map Char.toLower)

/-- Substring occurrence on character lists. -/
def subList (n : List Char) : List Char → Bool
  | [] => n.isEmpty
  | c :: cs => n.isPrefixOf (c :: cs) || subList n cs

/-- Python `needle in hay` on strings. -/
def containsSub (needle hay : String) : Bool :=
  subList needle.data hay.data

/-- Embeds `_resolve_span`: a styled span contributes a color property when
the (abstracted) `extract_color` collaborator finds one, a bold property
when the style matches `.*font-weight:\s*bold`, and an italic property when
it matches `.*font-style:\s*italic`; a span with no or empty style
contributes nothing. -/
def _resolve_span (extract_color : String → Option String) (tag : Tag) :
    List (List String) :=
  match tag.style with
  | none => []
  | some style =>
    if style = "" then []
    else
      (match extract_color style with
        | some color => [["h", color]]
        | none => []) ++
      (if reMatchBold style then [["b"]] else []) ++
      (if reMatchItalic style then [["i"]] else [])

/-- Splitting pass of Python `str.split(sep)` for a nonempty separator,
on character lists, with a fuel argument bounding the recursion so that
the definition is structural (and hence computes by kernel reduction);
`fuel` at least the input length plus one never runs out. -/
def pySplitAux (sep : List Char) : Nat → List Char → List Char → List (List Char)
  | 0, s, acc => [acc.reverse ++ s]
  | _ + 1, [], acc => [acc.reverse]
  | fuel + 1, c :: cs, acc =>
    if sep.isPrefixOf (c :: cs) && !sep.isEmpty then
      acc.reverse :: pySplitAux sep fuel ((c :: cs).drop sep.length) []
    else
      pySplitAux sep fuel cs (c :: acc)

/-- Python `s.split(sep)` for a nonempty separator. -/
def pySplit (s sep : String) : List String :=
  (pySplitAux sep.data (s.data.length + 1) s.data []).map String.mk

/-- Embeds `_get_evernote_title` up to the identifier extraction step:
Python `evernote_url.split("/")[-2].lower()`, which raises `IndexError`
(here `none`) when the split yields fewer than two parts. -/
def extractId (evernote_url : String) : Option String :=
  let parts := pySplit evernote_url "/"
  if h : 2 ≤ parts.length then
    some (lowerAscii (parts.get ⟨parts.length - 2, by omega⟩))
  else
    none

/-- Embeds `_get_evernote_title`: exact key lookup of the full internal
URL in the translation dictionary; on a miss, extract the identifier and
take the first entry whose lowercased key contains it as a substring;
an empty candidate list raises `IndexError`. -/
def _get_evernote_title (translation_dict : List (String × String))
    (evernote_url : String) : Except String String :=
  match translation_dict.lookup evernote_url with
  | some title => Except.ok title
  | none =>
    match extractId evernote_url with
    | none => Except.error "IndexError"
    | some evernote_id =>
      match (translation_dict.filter
          (fun kv => containsSub evernote_id (lowerAscii kv.1))).head? with
      | some kv => Except.ok kv.2
      | none => Except.error "IndexError"

/-- The exact-match search query Python builds from the title. -/
def searchQuery (title : String) : String :=
  "\"" ++ title ++ "\""

/-- Embeds `_get_notion_url_from_title`: unescape the title, post the
exact-match query, then return the URL of the first result whose
plain-text title equals the unescaped title, or `none` when no result
matches exactly; a search failure propagates as an exception. -/
def _get_notion_url_from_title (env : LinkEnv) (title : String) :
    Except String (Option String) :=
  let t := env.unescape title
  match env.search (searchQuery t) with
  | Except.error e => Except.error e
  | Except.ok results =>
    Except.ok ((results.find? (fun r => r.plain_text == t)).map SearchResult.url)

/-- Embeds `_get_notion_url`: title resolution then search. -/
def _get_notion_url (env : LinkEnv) (evernote_url : String) :
    Except String (Option String) :=
  match _get_evernote_title env.translation_dict evernote_url with
  | Except.error e => Except.error e
  | Except.ok title => _get_notion_url_from_title env title

/-- Embeds `_resolve_link`, returning the produced property (if any) and
the error-log messages emitted.  A falsy (absent or empty) href yields
nothing; an external href yields the link property unchanged; an internal
(`evernote://`) href triggers resolution: a successful lookup yields the
destination URL, a lookup that returns no exact match logs and falls back
to the original href, and a raised exception logs and falls through to
`return None`, producing no property at all. -/
def _resolve_link (env : LinkEnv) (tag : Tag) :
    Option (List String) × List String :=
  match tag.href with
  | none => (none, [])
  | some href =>
    if href = "" then (none, [])
    else if containsSub "evernote://" href then
      match _get_notion_url env href with
      | Except.error e =>
        (none, ["Notion URL retrieval failed: " ++ href ++ " with exception " ++ e])
      | Except.ok none =>
        (some ["a", href], ["Notion URL retrieval failed: " ++ href])
      | Except.ok (some notion_url) => (some ["a", notion_url], [])
    else (some ["a", href], [])

/-- The list of properties one tag contributes in
`resolve_string_properties`: the dispatch table maps `b`, `i`, `u`, `s`
to fixed single properties, `span` to `_resolve_span` and `a` to
`_resolve_link`; every other tag name contributes nothing. -/
def tagProps (extract_color : String → Option String) (env : LinkEnv)
    (tag : Tag) : List (List String) :=
  if tag.name = "b" then [["b"]]
  else if tag.name = "i" then [["i"]]
  else if tag.name = "u" then [["_"]]
  else if tag.name = "s" then [["s"]]
  else if tag.name = "span" then _resolve_span extract_color tag
  else if tag.name = "a" then (_resolve_link env tag).1.toList
  else []

/-- Embeds `resolve_string_properties`: fold the contributed properties of
every tag into one set. -/
def resolve_string_properties (extract_color : String → Option String)
    (env : LinkEnv) (tags : List Tag) : Finset (List String) :=
  tags.foldl (fun props tag => props ∪ (tagProps extract_color env tag).toFinset) ∅

/-!
Spec-modelled part.  The modules below (`note_parser.py`,
`note_parser_dom.py`, the indentation hierarchy builder, the table builder
and the resource extractor) are exercised by `tests/test_note_parser.py`
but their implementation files are not part of the extracted source, so
they are modelled from the specification (sections 4.3, 4.5, 4.6, 4.7 and
7), calibrated against the concrete expectations of the extracted tests.
-/

/-- A block of the destination document model, reduced to what the
indentation hierarchy needs: a text payload and owned children. -/
structure TBlock where
  text : String
  children : List TBlock

/-- One open ancestor on the indentation stack: its text, the pixel depth
at which it was opened, the depth its children level was established at
(if any child has been attached), and its accumulated children, most
recent first. -/
structure StkE where
  text : String
  own : Nat
  childExpect : Option Nat
  kids : List TBlock

/-- A string of `n` spaces. -/
def mkSpaces (n : Nat) : String :=
  String.mk (List.replicate n ' ')

/-- Modelled from the spec: the pop phase of the indentation hierarchy
builder (section 4.5), absent from the extracted source.  Close every open
ancestor whose depth is at least the new block depth `d`, attaching each
closed block to its parent (or to the root list when the stack empties).
The `pending` argument carries a block closed by the previous step and
waiting to be attached one level up. -/
def popGE (d : Nat) (roots : List TBlock) (pending : Option TBlock) :
    List StkE → List TBlock × List StkE
  | [] =>
    (match pending with
      | none => roots
      | some b => b :: roots, [])
  | e :: rest =>
    let e1 : StkE :=
      match pending with
      | none => e
      | some b => ⟨e.text, e.own, e.childExpect, b :: e.kids⟩
    if d ≤ e1.own then
      popGE d roots (some (TBlock.mk e1.text e1.kids.reverse)) rest
    else
      (roots, e1 :: rest)

/-- Modelled from the spec: the attach phase of the indentation builder
(section 4.5).  With the current top open at depth `e.own` strictly below
`d`, a block whose depth equals the established children level (by default
one 40px step above the top) is attached cleanly as a child; any other
depth is treated as a messed jump: the block is still attached exactly one
level deep, but its text is prefixed with 4 literal spaces per full 40px
unit of indentation in excess of the top level, as pinned by
`test_indented_messed`. -/
def attachChild (d : Nat) (txt : String) (roots : List TBlock) (e : StkE)
    (rest : List StkE) : List TBlock × List StkE :=
  let expected := e.childExpect.getD (e.own + 40)
  if d = expected then
    (roots, ⟨txt, d, none, []⟩ :: ⟨e.text, e.own, some expected, e.kids⟩ :: rest)
  else
    (roots, ⟨mkSpaces (((d - e.own) / 40) * 4) ++ txt, d, none, []⟩ ::
      ⟨e.text, e.own, some d, e.kids⟩ :: rest)

/-- Modelled from the spec: one step of the indentation hierarchy builder
(section 4.5) for a newly dispatched sibling block with pixel depth `d`.
Pop to the nearest enclosing level below `d`, then attach: at depth zero
on an empty stack the block opens a new root; a positive depth on an empty
stack synthesizes an empty-text root to anchor it. -/
def stepBlock (roots : List TBlock) (stack : List StkE) (d : Nat)
    (txt : String) : List TBlock × List StkE :=
  let rs := popGE d roots none stack
  match rs.2 with
  | [] =>
    if d = 0 then (rs.1, [⟨txt, 0, none, []⟩])
    else attachChild d txt rs.1 ⟨"", 0, none, []⟩ []
  | e :: rest => attachChild d txt rs.1 e rest

/-- Close all remaining open ancestors at end of traversal. -/
def finishAll (roots : List TBlock) (pending : Option TBlock) :
    List StkE → List TBlock
  | [] =>
    (match pending with
      | none => roots
      | some b => b :: roots).reverse
  | e :: rest =>
    let e1 : StkE :=
      match pending with
      | none => e
      | some b => ⟨e.text, e.own, e.childExpect, b :: e.kids⟩
    finishAll roots (some (TBlock.mk e1.text e1.kids.reverse)) rest

/-- Modelled from the spec: the indentation hierarchy builder (section
4.5) applied to a sequence of sibling blocks given as (pixel depth, text)
pairs, producing the block forest. -/
def buildIndent (items : List (Nat × String)) : List TBlock :=
  let st := items.foldl
    (fun (st : List TBlock × List StkE) it => stepBlock st.1 st.2 it.1 it.2)
    ([], [])
  finishAll st.1 none st.2

/-- A resource record, reduced to what reference resolution needs. -/
structure EResource where
  md5 : String
  mime : String
deriving DecidableEq

/-- A markup node as far as the modelled dispatcher distinguishes them:
an embedded-media reference or a plain text node. -/
inductive MNode where
  | media (hash : String) (mime : String)
  | text (s : String)
deriving DecidableEq

/-- A produced block in the modelled dispatcher. -/
inductive MBlock where
  | mediaBlock (mime : String) (hash : String)
  | textBlock (s : String)
deriving DecidableEq

/-- Modelled from the spec: resource-by-reference resolution (section
4.3 path a), absent from the extracted source.  Look the content hash up
in the caller-supplied resource table; a miss is recoverable: log a
warning containing "Failed to resolve resource" and omit the block. -/
def resolveMediaNode (resources : List (String × EResource))
    (hash mime : String) : Option MBlock × List String :=
  match resources.lookup hash with
  | none => (none, ["Failed to resolve resource " ++ hash])
  | some _ => (some (MBlock.mediaBlock mime hash), [])

/-- Per-node dispatch of the modelled traversal: the produced blocks and
the emitted log messages of one node. -/
def dispatchNode (resources : List (String × EResource)) (n : MNode) :
    List MBlock × List String :=
  match n with
  | MNode.text s => ([MBlock.textBlock s], [])
  | MNode.media h m =>
    let r := resolveMediaNode resources h m
    (r.1.toList, r.2)

/-- Modelled from the spec: the traversal over sibling nodes (sections
4.4 and 7); every node contributes its blocks and logs in document order,
and a recoverable failure of one node never discards its siblings. -/
def parseNodes (resources : List (String × EResource)) (nodes : List MNode) :
    List MBlock × List String :=
  nodes.foldr
    (fun n acc =>
      ((dispatchNode resources n).1 ++ acc.1, (dispatchNode resources n).2 ++ acc.2))
    ([], [])

/-- Modelled from the spec: the note-fatal boundary of `parse_note`
(sections 4.7 and 7), absent from the extracted source.  A failure to
parse the markup of the note at all yields an error log containing
"Failed to extract" and an empty block forest; it never raises. -/
def parse_note (parser : String → Option (List MNode))
    (resources : List (String × EResource)) (content : String) :
    List MBlock × List String :=
  match parser content with
  | none => ([], ["Failed to extract content from note"])
  | some nodes => parseNodes resources nodes

/-- One table cell: its column-span attribute value and its text. -/
structure TCell where
  colspan : Nat
  text : String
deriving DecidableEq

/-- Modelled from the spec: column-span expansion (section 4.6).  A cell
occupies its column-span many grid columns, the remainder backfilled with
empty-text placeholders. -/
def expandRow (cells : List TCell) : List String :=
  (cells.map (fun c => c.text :: List.replicate (c.colspan - 1) "")).flatten

/-- The maximum row width of a grid. -/
def maxRowLen (rows : List (List String)) : Nat :=
  rows.foldr (fun r m => max r.length m) 0

/-- Modelled from the spec: row padding (section 4.6).  Every row is
padded on the right with empty-text cells up to the maximum row width. -/
def padRows (rows : List (List String)) : List (List String) :=
  rows.map (fun r => r ++ List.replicate (maxRowLen rows - r.length) "")

/-- Modelled from the spec: the table builder (section 4.6), absent from
the extracted source: expand column spans, then pad ragged rows. -/
def buildTable (rows : List (List TCell)) : List (List String) :=
  padRows (rows.map expandRow)

/-- The internal-link title resolution as the specification words it
(claim C3): extract the internal note identifier first, look the
identifier up by exact key match, and only on a miss fall back to the
case-insensitive substring search.  A reference definition for comparison
with the source-derived `_get_evernote_title`. -/
def getTitleClaimed (translation_dict : List (String × String))
    (evernote_url : String) : Option String :=
  match extractId evernote_url with
  | none => none
  | some evernote_id =>
    match translation_dict.lookup evernote_id with
    | some title => some title
    | none =>
      ((translation_dict.filter
          (fun kv => containsSub evernote_id (lowerAscii kv.1))).head?).map Prod.snd

/-- A concrete environment whose search raises an exception. -/
def envSearchErr : LinkEnv :=
  ⟨[("evernote:///x/y/", "T")], fun _ => Except.error "network down", fun s => s⟩

/-- A concrete environment whose search succeeds with zero results. -/
def envSearchEmpty : LinkEnv :=
  ⟨[("evernote:///x/y/", "T")], fun _ => Except.ok [], fun s => s⟩

/-- A concrete environment whose search succeeds with one non-matching
result. -/
def envSearchMiss : LinkEnv :=
  ⟨[], fun _ => Except.ok [⟨"A", "u1"⟩], fun s => s⟩

/-- A concrete inert environment. -/
def envInert : LinkEnv :=
  ⟨[], fun _ => Except.error "", fun s => s⟩

/-- A concrete color extractor recognizing exactly the declaration
`color:red`. -/
def ecRed : String → Option String :=
  fun s => if containsSub "color:red" s then some "red" else none

/-!
Theorems.  Each claim of the specification review is settled by one
theorem below (with a witness when the theorem carries hypotheses, and a
counterexample when the claim as stated fails on the code).
-/

/-- C1 counterexample: when the external lookup raises (here: the search
query raises a network exception), `_resolve_link` logs the failure but
produces NO link property at all, instead of falling back to the original
internal link value as the claim states: the claimed fallback would be
`some ["a", "evernote:///x/y/"]`, the code returns `none`. -/
theorem c1_counterexample :
    _resolve_link envSearchErr ⟨"a", none, some "evernote:///x/y/"⟩ =
      (none,
        ["Notion URL retrieval failed: evernote:///x/y/ with exception network down"]) ∧
    (none : Option (List String)) ≠ some ["a", "evernote:///x/y/"] :=
  ⟨rfl, by decide⟩

/-- C1 (amended): for an internal-scheme href, when the lookup returns
without an exact title match the failure is logged and the property falls
back to the original link value; when the lookup raises for any reason
(network failure, missing mapping entry) the failure is logged but no
link property is produced; a successful lookup yields the destination
URL. -/
theorem c1_amended_link_fallback (env : LinkEnv) (tag : Tag) (href : String)
    (h1 : tag.href = some href) (h2 : href ≠ "")
    (h3 : containsSub "evernote://" href = true) :
    (_get_notion_url env href = Except.ok none →
      _resolve_link env tag =
        (some ["a", href], ["Notion URL retrieval failed: " ++ href])) ∧
    (∀ e, _get_notion_url env href = Except.error e →
      _resolve_link env tag =
        (none, ["Notion URL retrieval failed: " ++ href ++ " with exception " ++ e])) ∧
    (∀ u, _get_notion_url env href = Except.ok (some u) →
      _resolve_link env tag = (some ["a", u], [])) := by
  refine ⟨fun h => ?_, fun e h => ?_, fun u h => ?_⟩ <;>
    simp [_resolve_link, h1, h2, h3, h]

/-- C1 witness: a concrete internal link whose search succeeds but
matches nothing falls back to the original href and logs. -/
theorem c1_amended_link_fallback_witness :
    containsSub "evernote://" "evernote:///x/y/" = true ∧
    _resolve_link envSearchEmpty ⟨"a", none, some "evernote:///x/y/"⟩ =
      (some ["a", "evernote:///x/y/"],
        ["Notion URL retrieval failed: evernote:///x/y/"]) :=
  ⟨by decide,
    (c1_amended_link_fallback envSearchEmpty ⟨"a", none, some "evernote:///x/y/"⟩
      "evernote:///x/y/" rfl (by decide) (by decide)).1 rfl⟩

/-- C2: an anchor with a truthy external href (not containing the
internal note-link scheme) yields the link property carrying that href
unchanged, with no log output. -/
theorem c2_external_href_unchanged (env : LinkEnv) (tag : Tag) (href : String)
    (h1 : tag.href = some href) (h2 : href ≠ "")
    (h3 : containsSub "evernote://" href = false) :
    _resolve_link env tag = (some ["a", href], []) := by
  simp [_resolve_link, h1, h2, h3]

/-- C2 witness: a concrete external URL passes through unchanged. -/
theorem c2_external_href_unchanged_witness :
    _resolve_link envInert ⟨"a", none, some "https://google.com"⟩ =
      (some ["a", "https://google.com"], []) :=
  c2_external_href_unchanged envInert ⟨"a", none, some "https://google.com"⟩
    "https://google.com" rfl (by decide) (by decide)

/-- C3 counterexample: the claim says the extracted identifier is looked
up by exact key match before the substring fallback.  With the mapping
[("xabcx", "T1"), ("abc", "T2")] and a link whose identifier is "abc",
that procedure would return "T2" (exact key "abc"), but the code performs
the exact match on the full URL, misses, and takes the first substring
match "T1". -/
theorem c3_counterexample :
    _get_evernote_title [("xabcx", "T1"), ("abc", "T2")]
        "evernote:///view/1/abc/" = Except.ok "T1" ∧
    getTitleClaimed [("xabcx", "T1"), ("abc", "T2")]
        "evernote:///view/1/abc/" = some "T2" ∧
    ("T1" : String) ≠ "T2" :=
  ⟨rfl, rfl, by decide⟩

/-- C3 (amended): the exact key match is performed on the full internal
link value; only when it misses is the identifier extracted (second-to-
last slash-separated segment, lowercased) and matched case-insensitively
as a substring against the mapping keys, the first match in mapping
iteration order winning. -/
theorem c3_amended_title_lookup (dict : List (String × String)) (url : String) :
    (∀ t, dict.lookup url = some t → _get_evernote_title dict url = Except.ok t) ∧
    (∀ eid pre kv post,
      dict.lookup url = none → extractId url = some eid →
      dict = pre ++ kv :: post →
      containsSub eid (lowerAscii kv.1) = true →
      (∀ e2, e2 ∈ pre → containsSub eid (lowerAscii e2.1) = false) →
      _get_evernote_title dict url = Except.ok kv.2) := by
  constructor
  · intro t h
    simp [_get_evernote_title, h]
  · intro eid pre kv post h1 h2 h3 h4 h5
    subst h3
    have hnil : pre.filter (fun kv2 => containsSub eid (lowerAscii kv2.1)) = [] := by
      rw [List.filter_eq_nil_iff]
      intro a ha
      simp [h5 a ha]
    have hfil : (pre ++ kv :: post).filter
          (fun kv2 => containsSub eid (lowerAscii kv2.1)) =
        kv :: post.filter (fun kv2 => containsSub eid (lowerAscii kv2.1)) := by
      rw [List.filter_append, hnil, List.filter_cons, if_pos h4]
      simp
    simp [_get_evernote_title, h1, h2, hfil]

/-- C3 witness: a concrete miss on the full URL resolves through the
first substring match of the extracted identifier. -/
theorem c3_amended_title_lookup_witness :
    _get_evernote_title [("xabcx", "T1")] "evernote:///view/1/abc/" =
      Except.ok "T1" :=
  (c3_amended_title_lookup [("xabcx", "T1")] "evernote:///view/1/abc/").2
    "abc" [] ("xabcx", "T1") [] rfl rfl rfl (by decide)
    (by intro e2 h; exact absurd h (List.not_mem_nil e2))

/-- C4: when the search succeeds, a destination URL is returned only for
a result page whose plain-text title exactly equals the queried title
(the HTML-unescaped resolved title), and when no returned result has an
exactly equal title the lookup yields no URL. -/
theorem c4_exact_title_match (env : LinkEnv) (title : String)
    (rs : List SearchResult)
    (hs : env.search (searchQuery (env.unescape title)) = Except.ok rs) :
    (∀ u, _get_notion_url_from_title env title = Except.ok (some u) →
      ∃ r, r ∈ rs ∧ r.plain_text = env.unescape title ∧ r.url = u) ∧
    ((∀ r, r ∈ rs → r.plain_text ≠ env.unescape title) →
      _get_notion_url_from_title env title = Except.ok none) := by
  constructor
  · intro u hu
    simp only [_get_notion_url_from_title, hs] at hu
    have hmap : (rs.find? (fun r => r.plain_text == env.unescape title)).map
        SearchResult.url = some u := by
      exact Except.ok.inj hu
    obtain ⟨r, hfind, hurl⟩ := Option.map_eq_some'.mp hmap
    refine ⟨r, List.mem_of_find?_eq_some hfind, ?_, hurl⟩
    have := List.find?_some hfind
    exact beq_iff_eq.mp this
  · intro hall
    simp only [_get_notion_url_from_title, hs]
    have : rs.find? (fun r => r.plain_text == env.unescape title) = none := by
      rw [List.find?_eq_none]
      intro r hr
      simpa using hall r hr
    rw [this]
    rfl

/-- C4 witness: a concrete search returning one result with a different
title yields no URL. -/
theorem c4_exact_title_match_witness :
    _get_notion_url_from_title envSearchMiss "T" = Except.ok none :=
  (c4_exact_title_match envSearchMiss "T" [⟨"A", "u1"⟩] rfl).2 (by decide)

/-- C5: a styled span contributes, simultaneously and independently, a
color property exactly when the color extractor finds a color in its
style, a bold property exactly when the style matches
`.*font-weight:\s*bold`, and an italic property exactly when the style
matches `.*font-style:\s*italic`; a span without a style attribute (or
with an empty one) contributes no properties. -/
theorem c5_span_properties (extract_color : String → Option String) (tag : Tag) :
    (tag.style = none → _resolve_span extract_color tag = []) ∧
    (tag.style = some "" → _resolve_span extract_color tag = []) ∧
    (∀ s, tag.style = some s → s ≠ "" →
      (∀ c, ["h", c] ∈ _resolve_span extract_color tag ↔ extract_color s = some c) ∧
      (["b"] ∈ _resolve_span extract_color tag ↔ reMatchBold s = true) ∧
      (["i"] ∈ _resolve_span extract_color tag ↔ reMatchItalic s = true)) := by
  refine ⟨fun h => ?_, fun h => ?_, fun s hs hne => ?_⟩
  · simp [_resolve_span, h]
  · simp [_resolve_span, h]
  · cases hec : extract_color s <;>
      by_cases hb : reMatchBold s = true <;>
        by_cases hi : reMatchItalic s = true <;>
          simp_all [_resolve_span, hs, hne, hec] <;>
            exact fun c => eq_comm

/-- C5 witness: a concrete span style carrying a color declaration, a
bold weight and an italic style contributes all three properties at
once. -/
theorem c5_span_properties_witness :
    ["h", "red"] ∈ _resolve_span ecRed
        ⟨"span", some "color:red;font-weight: bold;font-style: italic", none⟩ ∧
    ["b"] ∈ _resolve_span ecRed
        ⟨"span", some "color:red;font-weight: bold;font-style: italic", none⟩ ∧
    ["i"] ∈ _resolve_span ecRed
        ⟨"span", some "color:red;font-weight: bold;font-style: italic", none⟩ :=
  ⟨((c5_span_properties ecRed _).2.2 "color:red;font-weight: bold;font-style: italic"
      rfl (by decide)).1 "red" |>.mpr (by decide),
    ((c5_span_properties ecRed _).2.2 "color:red;font-weight: bold;font-style: italic"
      rfl (by decide)).2.1.mpr (by decide),
    ((c5_span_properties ecRed _).2.2 "color:red;font-weight: bold;font-style: italic"
      rfl (by decide)).2.2.mpr (by decide)⟩

/-- Folding set unions over a list starts from the seed and adds every
contribution of a list element. -/
theorem mem_foldl_union (g : Tag → Finset (List String)) (p : List String) :
    ∀ (tags : List Tag) (s : Finset (List String)),
      (p ∈ tags.foldl (fun acc t => acc ∪ g t) s) ↔
        p ∈ s ∨ ∃ t, t ∈ tags ∧ p ∈ g t := by
  intro tags
  induction tags with
  | nil => intro s; simp
  | cons a as ih =>
    intro s
    rw [List.foldl_cons, ih]
    simp only [Finset.mem_union, List.mem_cons]
    constructor
    · rintro (⟨hp | hp⟩ | ⟨t, ht, hp⟩)
      · exact Or.inl hp
      · exact Or.inr ⟨a, Or.inl rfl, hp⟩
      · exact Or.inr ⟨t, Or.inr ht, hp⟩
    · rintro (hp | ⟨t, rfl | ht, hp⟩)
      · exact Or.inl (Or.inl hp)
      · exact Or.inl (Or.inr hp)
      · exact Or.inr ⟨t, ht, hp⟩

/-- Membership characterization of `resolve_string_properties`. -/
theorem mem_resolve_string_properties (extract_color : String → Option String)
    (env : LinkEnv) (p : List String) (tags : List Tag) :
    p ∈ resolve_string_properties extract_color env tags ↔
      ∃ t, t ∈ tags ∧ p ∈ tagProps extract_color env t := by
  have h := mem_foldl_union
    (fun t => (tagProps extract_color env t).toFinset) p tags ∅
  simp only [Finset.not_mem_empty, false_or, List.mem_toFinset] at h
  exact h

/-- A tag whose name is none of the dispatched ones contributes no
properties. -/
theorem tagProps_eq_nil (extract_color : String → Option String)
    (env : LinkEnv) (t : Tag)
    (h : t.name ∉ (["b", "i", "u", "s", "span", "a"] : List String)) :
    tagProps extract_color env t = [] := by
  simp only [List.mem_cons, List.not_mem_nil, or_false, not_or] at h
  obtain ⟨h1, h2, h3, h4, h5, h6⟩ := h
  simp [tagProps, h1, h2, h3, h4, h5, h6]

/-- C10: `resolve_string_properties` has set semantics: its result is
invariant under permutation of the input tags and under duplication of a
tag (a repeated bold tag contributes the bold property exactly once), and
a tag whose name is not one of b, i, u, s, span, a contributes no
properties. -/
theorem c10_resolve_set_semantics (extract_color : String → Option String)
    (env : LinkEnv) (tags tags2 : List Tag) (t : Tag) (ts : List Tag) :
    (tags.Perm tags2 →
      resolve_string_properties extract_color env tags =
        resolve_string_properties extract_color env tags2) ∧
    (resolve_string_properties extract_color env (t :: t :: ts) =
      resolve_string_properties extract_color env (t :: ts)) ∧
    (t.name ∉ (["b", "i", "u", "s", "span", "a"] : List String) →
      resolve_string_properties extract_color env (t :: ts) =
        resolve_string_properties extract_color env ts) := by
  refine ⟨fun hperm => ?_, ?_, fun hname => ?_⟩
  · apply Finset.ext
    intro p
    rw [mem_resolve_string_properties, mem_resolve_string_properties]
    constructor
    · rintro ⟨x, hx, hpx⟩
      exact ⟨x, hperm.mem_iff.mp hx, hpx⟩
    · rintro ⟨x, hx, hpx⟩
      exact ⟨x, hperm.mem_iff.mpr hx, hpx⟩
  · apply Finset.ext
    intro p
    rw [mem_resolve_string_properties, mem_resolve_string_properties]
    simp only [List.mem_cons]
    constructor
    · rintro ⟨x, hx1 | hx1 | hx1, hpx⟩
      · exact ⟨x, Or.inl hx1, hpx⟩
      · exact ⟨x, Or.inl hx1, hpx⟩
      · exact ⟨x, Or.inr hx1, hpx⟩
    · rintro ⟨x, hx1 | hx1, hpx⟩
      · exact ⟨x, Or.inl hx1, hpx⟩
      · exact ⟨x, Or.inr (Or.inr hx1), hpx⟩
  · apply Finset.ext
    intro p
    rw [mem_resolve_string_properties, mem_resolve_string_properties]
    simp only [List.mem_cons]
    constructor
    · rintro ⟨x, hx1 | hx1, hpx⟩
      · rw [hx1, tagProps_eq_nil extract_color env t hname] at hpx
        exact absurd hpx (List.not_mem_nil p)
      · exact ⟨x, hx1, hpx⟩
    · rintro ⟨x, hx, hpx⟩
      exact ⟨x, Or.inr hx, hpx⟩

/-- C10 witness: concrete permutation, duplication and unknown-tag
instances. -/
theorem c10_resolve_set_semantics_witness :
    resolve_string_properties ecRed envInert [⟨"b", none, none⟩, ⟨"i", none, none⟩] =
      resolve_string_properties ecRed envInert [⟨"i", none, none⟩, ⟨"b", none, none⟩] ∧
    resolve_string_properties ecRed envInert [⟨"b", none, none⟩, ⟨"b", none, none⟩] =
      resolve_string_properties ecRed envInert [⟨"b", none, none⟩] ∧
    resolve_string_properties ecRed envInert [⟨"div", none, none⟩, ⟨"b", none, none⟩] =
      resolve_string_properties ecRed envInert [⟨"b", none, none⟩] :=
  ⟨(c10_resolve_set_semantics ecRed envInert
      [⟨"b", none, none⟩, ⟨"i", none, none⟩]
      [⟨"i", none, none⟩, ⟨"b", none, none⟩]
      ⟨"b", none, none⟩ []).1
      (List.Perm.swap (⟨"i", none, none⟩ : Tag) (⟨"b", none, none⟩ : Tag) []),
    (c10_resolve_set_semantics ecRed envInert [] []
      ⟨"b", none, none⟩ []).2.1,
    (c10_resolve_set_semantics ecRed envInert [] []
      ⟨"div", none, none⟩ [⟨"b", none, none⟩]).2.2 (by decide)⟩

/-- A stack whose top is already strictly shallower than the new depth is
left untouched by the pop phase. -/
theorem popGE_stay (d : Nat) (roots : List TBlock) (e : StkE)
    (rest : List StkE) (h : e.own < d) :
    popGE d roots none (e :: rest) = (roots, e :: rest) := by
  simp [popGE, Nat.not_le.mpr h]

/-- The pop phase closes exactly the open ancestors whose depth is at
least the new depth: the remaining open depths are the original ones with
the leading run of depths `≥ d` dropped. -/
theorem popGE_map_own (d : Nat) :
    ∀ (stack : List StkE) (roots : List TBlock) (pending : Option TBlock),
      ((popGE d roots pending stack).2).map StkE.own =
        (stack.map StkE.own).dropWhile (fun n => decide (d ≤ n)) := by
  intro stack
  induction stack with
  | nil =>
    intro roots pending
    cases pending <;> simp [popGE]
  | cons e rest ih =>
    intro roots pending
    by_cases h : d ≤ e.own
    · cases pending <;> simp [popGE, h, List.dropWhile_cons, ih]
    · cases pending <;> simp [popGE, h, List.dropWhile_cons]

/-- Depth zero closes the whole stack. -/
theorem popGE_zero_stack :
    ∀ (stack : List StkE) (roots : List TBlock) (pending : Option TBlock),
      (popGE 0 roots pending stack).2 = [] := by
  intro stack
  induction stack with
  | nil =>
    intro roots pending
    cases pending <;> simp [popGE]
  | cons e rest ih =>
    intro roots pending
    cases pending <;> simp [popGE, ih]

/-- A block of depth zero always ends up opening a fresh root-level
block: the stack after the step holds exactly the new block at depth
zero. -/
theorem stepBlock_zero (roots : List TBlock) (stack : List StkE)
    (txt : String) :
    (stepBlock roots stack 0 txt).2 = [⟨txt, 0, none, []⟩] := by
  have h := popGE_zero_stack stack roots none
  rcases hp : popGE 0 roots none stack with ⟨r2, st2⟩
  rw [hp] at h
  simp only at h
  subst h
  simp [stepBlock, hp]

/-- A messed jump (depth above the top but different from the established
children level) attaches the block exactly one level deep with the
space-prefixed text. -/
theorem stepBlock_messed (roots : List TBlock) (e : StkE) (rest : List StkE)
    (d : Nat) (txt : String) (hlt : e.own < d)
    (hne : d ≠ e.childExpect.getD (e.own + 40)) :
    stepBlock roots (e :: rest) d txt =
      (roots, ⟨mkSpaces (((d - e.own) / 40) * 4) ++ txt, d, none, []⟩ ::
        ⟨e.text, e.own, some d, e.kids⟩ :: rest) := by
  simp [stepBlock, popGE_stay d roots e rest hlt, attachChild, hne]

/-- C6 counterexample: per the extracted test `test_indented_messed`, a
block at 80px following a root-level block is nested one level deep with
an 8-space prefix (4 spaces per full 40px step above the current level),
whereas the claimed formula of (steps - 1) * 4 spaces with steps = 2
would give a 4-space prefix. -/
theorem c6_counterexample :
    buildIndent [(0, "test1"), (80, "test2"), (40, "test3")] =
      [TBlock.mk "test1"
        [TBlock.mk "        test2" [], TBlock.mk "    test3" []]] ∧
    ("        test2" : String) ≠ mkSpaces ((2 - 1) * 4) ++ "test2" :=
  ⟨rfl, by decide⟩

/-- C6 (amended): in the indentation hierarchy builder, a sibling block
whose pixel depth lies above the current top level but does not hit the
established children level is nested exactly one level deep with its text
prefixed by 4 literal spaces per full 40px unit of indentation in excess
of the top level (not (steps - 1) * 4); a decrease pops the stack to the
nearest enclosing ancestor level below the new depth; and zero
indentation after anything returns attachment to the root. -/
theorem c6_amended_indentation (roots : List TBlock) (e : StkE)
    (rest stack : List StkE) (d : Nat) (txt : String)
    (pending : Option TBlock) :
    (e.own < d → d ≠ e.childExpect.getD (e.own + 40) →
      stepBlock roots (e :: rest) d txt =
        (roots, ⟨mkSpaces (((d - e.own) / 40) * 4) ++ txt, d, none, []⟩ ::
          ⟨e.text, e.own, some d, e.kids⟩ :: rest)) ∧
    (((popGE d roots pending stack).2).map StkE.own =
      (stack.map StkE.own).dropWhile (fun n => decide (d ≤ n))) ∧
    ((stepBlock roots stack 0 txt).2 = [⟨txt, 0, none, []⟩]) :=
  ⟨fun hlt hne => stepBlock_messed roots e rest d txt hlt hne,
    popGE_map_own d stack roots pending,
    stepBlock_zero roots stack txt⟩

/-- C6 witness: the messed 80px jump above a level-0 top gets the 8-space
prefix one level deep; a zero-depth block after an indented one reopens
the root. -/
theorem c6_amended_indentation_witness :
    ((⟨"test1", 0, none, []⟩ : StkE).own < 80) ∧
    stepBlock [] [⟨"test1", 0, none, []⟩] 80 "test2" =
      ([], [⟨"        test2", 80, none, []⟩, ⟨"test1", 0, some 80, []⟩]) ∧
    (stepBlock [] [⟨"x", 80, none, []⟩] 0 "test3").2 =
      [⟨"test3", 0, none, []⟩] :=
  ⟨by decide,
    (c6_amended_indentation [] ⟨"test1", 0, none, []⟩ [] [] 80 "test2" none).1
      (by decide) (by decide),
    (c6_amended_indentation [] ⟨"test1", 0, none, []⟩ []
      [⟨"x", 80, none, []⟩] 80 "test3" none).2.2⟩

/-- The modelled indentation builder reproduces `test_indented`. -/
theorem buildIndent_simple_example :
    buildIndent [(0, "test1"), (40, "test2"), (0, "test3")] =
      [TBlock.mk "test1" [TBlock.mk "test2" []], TBlock.mk "test3" []] := rfl

/-- The modelled indentation builder reproduces `test_indented_nested`. -/
theorem buildIndent_nested_example :
    buildIndent [(0, "test1"), (40, "test2"), (80, "test3"), (120, "test4"),
        (160, "test5")] =
      [TBlock.mk "test1" [TBlock.mk "test2" [TBlock.mk "test3"
        [TBlock.mk "test4" [TBlock.mk "test5" []]]]]] := rfl

/-- The modelled indentation builder reproduces `test_indented_from_start`:
a leading indented block gets an empty-text synthesized root. -/
theorem buildIndent_from_start_example :
    buildIndent [(40, "test1")] =
      [TBlock.mk "" [TBlock.mk "test1" []]] := rfl

/-- The modelled indentation builder reproduces `test_indented_complex`. -/
theorem buildIndent_complex_example :
    buildIndent [(0, "test1"), (40, "test2"), (40, "test3"), (80, "test4"),
        (80, "test5"), (120, "test6"), (40, "test7"), (0, "test8"),
        (0, "test9")] =
      [TBlock.mk "test1"
        [TBlock.mk "test2" [],
          TBlock.mk "test3"
            [TBlock.mk "test4" [], TBlock.mk "test5" [TBlock.mk "test6" []]],
          TBlock.mk "test7" []],
        TBlock.mk "test8" [], TBlock.mk "test9" []] := rfl

/-- C7: when the markup of a note cannot be parsed as a tree at all,
`parse_note` returns the empty block forest together with an error log
containing "Failed to extract", and (being a total function) never
raises past this boundary. -/
theorem c7_bad_note_empty_forest (parser : String → Option (List MNode))
    (resources : List (String × EResource)) (content : String)
    (h : parser content = none) :
    parse_note parser resources content =
      ([], ["Failed to extract content from note"]) ∧
    containsSub "Failed to extract" "Failed to extract content from note" = true := by
  constructor
  · simp [parse_note, h]
  · decide

/-- C7 witness: the concrete unparseable content of `test_bad_note`. -/
theorem c7_bad_note_empty_forest_witness :
    parse_note (fun _ => none) [] "bad" =
      ([], ["Failed to extract content from note"]) ∧
    containsSub "Failed to extract" "Failed to extract content from note" = true :=
  c7_bad_note_empty_forest (fun _ => none) [] "bad" rfl

/-- A list is a prefix of itself followed by anything. -/
theorem isPrefixOf_append_self (n t : List Char) :
    n.isPrefixOf (n ++ t) = true := by
  induction n with
  | nil => simp [List.isPrefixOf]
  | cons a as ih => simp [List.isPrefixOf, ih]

/-- A character list occurs inside itself followed by anything. -/
theorem subList_append_self (n t : List Char) :
    subList n (n ++ t) = true := by
  cases n with
  | nil => cases t <;> simp [subList, List.isPrefixOf, List.isEmpty]
  | cons a as =>
    simp only [List.cons_append, subList, Bool.or_eq_true]
    left
    simp [isPrefixOf_append_self (a :: as) t]

/-- A string occurs as a substring of itself followed by anything. -/
theorem containsSub_append_self (s t : String) :
    containsSub s (s ++ t) = true := by
  show subList s.data (s ++ t).data = true
  rw [String.data_append]
  exact subList_append_self s.data t.data

/-- Unfolding one node of the modelled traversal. -/
theorem parseNodes_cons (resources : List (String × EResource)) (n : MNode)
    (ns : List MNode) :
    parseNodes resources (n :: ns) =
      ((dispatchNode resources n).1 ++ (parseNodes resources ns).1,
        (dispatchNode resources n).2 ++ (parseNodes resources ns).2) := rfl

/-- The modelled traversal distributes over appending node lists. -/
theorem parseNodes_append (resources : List (String × EResource))
    (l1 l2 : List MNode) :
    parseNodes resources (l1 ++ l2) =
      ((parseNodes resources l1).1 ++ (parseNodes resources l2).1,
        (parseNodes resources l1).2 ++ (parseNodes resources l2).2) := by
  induction l1 with
  | nil => simp [parseNodes]
  | cons n ns ih => simp [parseNodes_cons, ih]

/-- C8: an embedded-media node whose content hash is absent from the
resource table contributes no block, contributes a warning log message
containing "Failed to resolve resource", and leaves the blocks of all
sibling nodes intact. -/
theorem c8_resource_miss_recoverable (resources : List (String × EResource))
    (pre post : List MNode) (h m : String)
    (hmiss : resources.lookup h = none) :
    (parseNodes resources (pre ++ MNode.media h m :: post)).1 =
      (parseNodes resources pre).1 ++ (parseNodes resources post).1 ∧
    ("Failed to resolve resource " ++ h) ∈
      (parseNodes resources (pre ++ MNode.media h m :: post)).2 ∧
    containsSub "Failed to resolve resource"
      ("Failed to resolve resource " ++ h) = true := by
  refine ⟨?_, ?_, ?_⟩
  · rw [parseNodes_append, parseNodes_cons]
    simp [dispatchNode, resolveMediaNode, hmiss]
  · rw [parseNodes_append, parseNodes_cons]
    simp [dispatchNode, resolveMediaNode, hmiss]
  · have hbase : ("Failed to resolve resource " : String) =
        "Failed to resolve resource" ++ " " := by decide
    rw [hbase, String.append_assoc]
    exact containsSub_append_self "Failed to resolve resource" (" " ++ h)

/-- C8 witness: the concrete missing hash of `test_bad_resource`, with
sibling text nodes preserved. -/
theorem c8_resource_miss_recoverable_witness :
    (parseNodes [] ([MNode.text "a"] ++ MNode.media "fake_hash" "fake/mime"
        :: [MNode.text "b"])).1 =
      (parseNodes [] [MNode.text "a"]).1 ++ (parseNodes [] [MNode.text "b"]).1 ∧
    ("Failed to resolve resource " ++ "fake_hash") ∈
      (parseNodes [] ([MNode.text "a"] ++ MNode.media "fake_hash" "fake/mime"
        :: [MNode.text "b"])).2 ∧
    containsSub "Failed to resolve resource"
      ("Failed to resolve resource " ++ "fake_hash") = true :=
  c8_resource_miss_recoverable [] [MNode.text "a"] [MNode.text "b"]
    "fake_hash" "fake/mime" rfl

/-- Every member row is bounded by the maximum row width. -/
theorem le_maxRowLen (rows : List (List String)) (r : List String)
    (hr : r ∈ rows) : r.length ≤ maxRowLen rows := by
  induction rows with
  | nil => cases hr
  | cons a as ih =>
    rcases List.mem_cons.mp hr with h1 | h1
    · subst h1
      exact le_max_left _ _
    · exact le_trans (ih h1) (le_max_right _ _)

/-- C9: every row of a produced table has column count equal to the
maximum expanded row width of the table: rows are the expanded rows
padded on the right with empty-text cells, and column-span expansion
makes a cell occupy exactly its span many grid columns. -/
theorem c9_table_rows_equal_length (rows : List (List TCell)) :
    (∀ r, r ∈ buildTable rows →
      r.length = maxRowLen (rows.map expandRow)) ∧
    (∀ r, r ∈ buildTable rows → ∃ r0, r0 ∈ rows.map expandRow ∧
      r = r0 ++ List.replicate
        (maxRowLen (rows.map expandRow) - r0.length) "") ∧
    (∀ cells : List TCell, (∀ c, c ∈ cells → 1 ≤ c.colspan) →
      (expandRow cells).length = (cells.map TCell.colspan).sum) := by
  refine ⟨?_, ?_, ?_⟩
  · intro r hr
    obtain ⟨r0, hr0, rfl⟩ := List.mem_map.mp hr
    have hle := le_maxRowLen (rows.map expandRow) r0 hr0
    simp [List.length_append, List.length_replicate]
    omega
  · intro r hr
    obtain ⟨r0, hr0, rfl⟩ := List.mem_map.mp hr
    exact ⟨r0, hr0, rfl⟩
  · intro cells hge
    induction cells with
    | nil => simp [expandRow]
    | cons c cs ih =>
      have hc := hge c (List.mem_cons_self c cs)
      have ihcs := ih (fun c2 hc2 => hge c2 (List.mem_cons_of_mem c hc2))
      simp only [expandRow, List.map_cons, List.flatten_cons, List.length_append,
        List.length_cons, List.length_replicate, List.sum_cons] at ihcs ⊢
      omega

/-- C9 witness: the concrete ragged table of `test_table_padded`: a
colspan-2 cell row and a two-cell row both come out two columns wide. -/
theorem c9_table_rows_equal_length_witness :
    (["test1", ""] : List String) ∈
      buildTable [[⟨2, "test1"⟩], [⟨1, "test2"⟩, ⟨1, "test3"⟩]] ∧
    (["test1", ""] : List String).length =
      maxRowLen ([[⟨2, "test1"⟩], [⟨1, "test2"⟩, ⟨1, "test3"⟩]].map expandRow) :=
  ⟨by decide,
    (c9_table_rows_equal_length [[⟨2, "test1"⟩], [⟨1, "test2"⟩, ⟨1, "test3"⟩]]).1
      ["test1", ""] (by decide)⟩

/-- The modelled table builder reproduces `test_table_padded`. -/
theorem buildTable_padded_example :
    buildTable [[⟨2, "test1"⟩], [⟨1, "test2"⟩, ⟨1, "test3"⟩]] =
      [["test1", ""], ["test2", "test3"]] := rfl
